import Mathlib

/-!
Verification of the el-stupido compiler front/middle-end against its
specification.  Shallow embedding of the relevant C sources
(src/preproc.c, src/parser.c, src/codegen.c) as executable Lean
definitions, with theorems settling the specification claims.

Conventions: machine integers are modelled as `Nat`/`Int` with explicit
reduction modulo `2 ^ w`; fallible code paths (`es_fatal`, LLVM poison,
out-of-fuel recursion) are modelled with `Option`.
-/

namespace ElStupido

/-! ## Two's-complement helpers -/

/-- Interpret the unsigned bits `v` of a `w`-bit value as a signed integer. -/
def toSigned (w v : Nat) : Int :=
  if v < 2 ^ (w - 1) then (v : Int) else (v : Int) - 2 ^ w

/-- Encode an integer into the unsigned bits of a `w`-bit value
(two's complement, i.e. reduction modulo `2 ^ w`). -/
def ofIntW (w : Nat) (i : Int) : Nat :=
  (i.emod (2 ^ w)).toNat

/-- The unsigned 64-bit encoding of an integer. -/
def toU64 (i : Int) : Nat := ofIntW 64 i

/-- The signed value denoted by 64 bits. -/
def ofU64 (n : Nat) : Int := toSigned 64 n

/-- Wrap an integer to the signed 64-bit (`int64_t`) range. -/
def wrap64 (i : Int) : Int := ofU64 (toU64 i)

/-! ## C3 — integer binary operations (codegen.c, cg_expr ND_BINARY)

An LLVM integer value is a bit-width together with the unsigned value of
its bits.  `widenPair` mirrors codegen.c lines 610-615 (zero-extend the
narrower operand to the wider width); `evalIntBin` mirrors the integer
op switch at lines 684-708, with each LLVM instruction given its
documented semantics (udiv/sdiv/urem/srem by zero and over-shifting are
poison, modelled as `none`). -/

/-- An integer value in the IR: bit-width and unsigned bits. -/
structure IVal where
  width : Nat
  val : Nat
deriving DecidableEq

/-- LLVMBuildZExt to width `t`: the unsigned value is unchanged. -/
def zext (t : Nat) (x : IVal) : IVal := ⟨t, x.val⟩

/-- Widen integers to match if sizes differ (codegen.c 610-615):
if `lw > rw` the right operand is zero-extended to the left type,
else if `rw > lw` the left operand is zero-extended to the right type. -/
def widenPair (l r : IVal) : IVal × IVal :=
  if r.width < l.width then (l, zext l.width r)
  else if l.width < r.width then (zext r.width l, r)
  else (l, r)

/-- The binary operators of the language (token kinds used by ND_BINARY
in the integer path; TOK_LAND/TOK_LOR short-circuit earlier and never
reach the widening code). -/
inductive BinOp where
  | plus | minus | star | slash | percent
  | eq | neq | lt | gt | leq | geq
  | amp | pipe | caret | shl | shr
deriving DecidableEq

/-- Comparison operators produce an `i1` via LLVMBuildICmp. -/
def BinOp.isCmp : BinOp → Bool
  | .eq | .neq | .lt | .gt | .leq | .geq => true
  | _ => false

/-- Evaluate one integer binary op on two `w`-bit operands `l`, `r`
(unsigned bit values), mirroring the op switch of codegen.c 684-708.
`isUnsigned` is the signedness of the static result type, which selects
udiv/sdiv, urem/srem, lshr/ashr and the icmp predicate. -/
def evalIntBin (op : BinOp) (isUnsigned : Bool) (w l r : Nat) : Option IVal :=
  match op with
  | .plus => some ⟨w, (l + r) % 2 ^ w⟩
  | .minus => some ⟨w, ofIntW w ((l : Int) - (r : Int))⟩
  | .star => some ⟨w, (l * r) % 2 ^ w⟩
  | .slash =>
      if r = 0 then none
      else if isUnsigned then some ⟨w, l / r⟩
      else some ⟨w, ofIntW w (Int.tdiv (toSigned w l) (toSigned w r))⟩
  | .percent =>
      if r = 0 then none
      else if isUnsigned then some ⟨w, l % r⟩
      else some ⟨w, ofIntW w (Int.tmod (toSigned w l) (toSigned w r))⟩
  | .eq => some ⟨1, if l = r then 1 else 0⟩
  | .neq => some ⟨1, if l = r then 0 else 1⟩
  | .lt =>
      some ⟨1, if (if isUnsigned then l < r else toSigned w l < toSigned w r) then 1 else 0⟩
  | .gt =>
      some ⟨1, if (if isUnsigned then r < l else toSigned w r < toSigned w l) then 1 else 0⟩
  | .leq =>
      some ⟨1, if (if isUnsigned then l ≤ r else toSigned w l ≤ toSigned w r) then 1 else 0⟩
  | .geq =>
      some ⟨1, if (if isUnsigned then r ≤ l else toSigned w r ≤ toSigned w l) then 1 else 0⟩
  | .amp => some ⟨w, Nat.land l r⟩
  | .pipe => some ⟨w, Nat.lor l r⟩
  | .caret => some ⟨w, Nat.xor l r⟩
  | .shl => if w ≤ r then none else some ⟨w, (l <<< r) % 2 ^ w⟩
  | .shr =>
      if w ≤ r then none
      else if isUnsigned then some ⟨w, l >>> r⟩
      else some ⟨w, ofIntW w (Int.fdiv (toSigned w l) (2 ^ r))⟩

/-- Lowering of an integer-integer ND_BINARY: widen the operands to a
common width, then apply the op (codegen.c 605-708, integer path). -/
def cgIntBinary (op : BinOp) (isUnsigned : Bool) (l r : IVal) : Option IVal :=
  let p := widenPair l r
  evalIntBin op isUnsigned p.1.width p.1.val p.2.val

/-! ## C8 — compile-time constant folding (codegen.c, cg_expr ND_COMPTIME)

The folder works on `int64_t` values.  Shifts and bitwise ops are given
the x86-64 machine semantics the compiled C exhibits (shift amounts are
taken modulo 64; bitwise ops act on the two's-complement bits). -/

/-- The expression sub-language accepted by the compile-time folder:
integer literals, binary ops, unary negate, ternary, and sizeof of a
named type (carrying its layout size).  Anything else is a compile-time
error. -/
inductive CtExpr where
  | intLit (value : Int)
  | binary (op : BinOp) (left right : CtExpr)
  | negate (operand : CtExpr)
  | ternary (cond thenE elseE : CtExpr)
  | sizeofTy (layoutSize : Nat)
deriving DecidableEq

/-- One step of the comptime binary switch (codegen.c 844-861).
Division and remainder by zero yield zero. -/
def ctBinFold (op : BinOp) (l r : Int) : Int :=
  match op with
  | .plus => wrap64 (l + r)
  | .minus => wrap64 (l - r)
  | .star => wrap64 (l * r)
  | .slash => if r = 0 then 0 else wrap64 (Int.tdiv l r)
  | .percent => if r = 0 then 0 else wrap64 (Int.tmod l r)
  | .shl => ofU64 ((toU64 l <<< (toU64 r % 64)) % 2 ^ 64)
  | .shr => Int.fdiv (wrap64 l) (2 ^ (toU64 r % 64))
  | .amp => ofU64 (Nat.land (toU64 l) (toU64 r))
  | .pipe => ofU64 (Nat.lor (toU64 l) (toU64 r))
  | .caret => ofU64 (Nat.xor (toU64 l) (toU64 r))
  | .eq => if l = r then 1 else 0
  | .neq => if l = r then 0 else 1
  | .lt => if l < r then 1 else 0
  | .gt => if r < l then 1 else 0
  | .leq => if l ≤ r then 1 else 0
  | .geq => if r ≤ l then 1 else 0

/-- Recursive compile-time fold (codegen.c 830-878): literals are their
value; a binary folds both sides and applies `ctBinFold`; unary minus
negates; a ternary folds the condition and picks a branch; sizeof
reduces to the layout size constant. -/
def ctFold : CtExpr → Option Int
  | .intLit v => some v
  | .binary op l r => do
      let lv ← ctFold l
      let rv ← ctFold r
      some (ctBinFold op lv rv)
  | .negate e => (ctFold e).map (fun v => wrap64 (-v))
  | .ternary c t e => do
      let cv ← ctFold c
      if cv = 0 then ctFold e else ctFold t
  | .sizeofTy s => some (s : Int)

/-- A constant emitted by codegen: bit width and bits. -/
structure CgConst where
  width : Nat
  bits : Nat
deriving DecidableEq

/-- Whether the comptime operand is a bare sizeof node. -/
def CtExpr.isSizeof : CtExpr → Bool
  | .sizeofTy _ => true
  | _ => false

/-- Emission of an ND_COMPTIME node (codegen.c 830-881): the sizeof
branch returns LLVMSizeOf with the node typed i64; every other foldable
expression is emitted as `LLVMConstInt(i64, (uint64_t)val)`. -/
def cgComptime (e : CtExpr) : Option CgConst :=
  match e with
  | .sizeofTy s => some ⟨64, toU64 (s : Int)⟩
  | _ => (ctFold e).map (fun v => ⟨64, toU64 v⟩)

/-! ## C9 — external declarations and the symbol table
(codegen.c, sym_push / sym_lookup / cg_ext_decl)

The C symbol table is an array pushed at the end and scanned from the
most recent entry; it is modelled as a list with the most recent entry
first.  The LLVM module is modelled as the ordered list of functions
added to it. -/

/-- The type language of the AST (ast.h, TypeKind and EsType). -/
inductive EsType where
  | i8 | i16 | i32 | i64
  | u8 | u16 | u32 | u64
  | f32 | f64
  | void
  | ptr (base : EsType)
  | array (size : Nat) (elem : EsType)
  | strct (name : String)
  | fn (ret : EsType) (params : List EsType) (is_vararg : Bool)

/-- A symbol-table entry (codegen.c struct Symbol, name and type). -/
structure Symbol where
  name : String
  type : EsType

/-- sym_lookup: scan from the most recent entry for a matching name. -/
def sym_lookup (syms : List Symbol) (name : String) : Option Symbol :=
  syms.find? (fun s => s.name == name)

/-- An external function declaration (ast.h ND_EXT_DECL payload). -/
structure ExtSig where
  name : String
  params : List EsType
  ret : EsType
  is_vararg : Bool

/-- The function type recorded for an extern (codegen.c type_fn call). -/
def extFnType (d : ExtSig) : EsType := .fn d.ret d.params d.is_vararg

/-- Codegen state relevant to external declarations: the functions added
to the module, in order, and the symbol stack. -/
structure ExtCG where
  mod : List (String × EsType)
  syms : List Symbol

/-- cg_ext_decl (codegen.c 1222-1235): skip the declaration entirely if
the name is already in the symbol table, else add the function to the
module and push the symbol. -/
def cg_ext_decl (g : ExtCG) (d : ExtSig) : ExtCG :=
  if (sym_lookup g.syms d.name).isSome then g
  else { mod := g.mod ++ [(d.name, extFnType d)],
         syms := { name := d.name, type := extFnType d } :: g.syms }

/-- Process a list of external declarations in program order. -/
def cg_ext_list (g : ExtCG) : List ExtSig → ExtCG
  | [] => g
  | d :: rest => cg_ext_list (cg_ext_decl g d) rest

/-! ## C1 / C5 — statement lowering, defer stack and function exits
(codegen.c, cg_stmt / cg_block / cg_fn_decl)

Statements are lowered to a trace of emitted events.  The state carries
the emitted events, the per-function defer stack (insertion order), the
current basic block's terminator status (cg_block stops after a
statement that terminated the block) and whether the builder is inside
a loop (break/continue outside a loop call es_fatal).

`cg_stmt` on ND_RET emits every entry of the defer stack, from the most
recently pushed down to the first, by recursively calling itself on the
deferred statement, and then builds the ret.  A deferred statement that
is itself a `ret` therefore re-enters the same loop over the unchanged
defer stack: the C recursion has no base case and never terminates, so
the embedding takes fuel and returns `none` when the fuel runs out. -/

/-- The statement forms relevant to defer lowering (ast.h ND_RET,
ND_EXPR_STMT, ND_DEFER, ND_BREAK, ND_CONTINUE).  Expression statements
are abstracted to an identifying tag. -/
inductive DStmt where
  | ret (value : Option Int)
  | exprS (tag : Nat)
  | deferS (body : DStmt)
  | breakS
  | contS
deriving DecidableEq

/-- Events emitted into the current function's blocks. -/
inductive DEv where
  | stmt (tag : Nat)
  | retI (value : Option Int)
  | brEnd
  | brCond
deriving DecidableEq

/-- Lowering state: emitted trace, defer stack (insertion order),
whether the current block already has a terminator, and whether loop
break/continue targets exist. -/
structure DSt where
  out : List DEv
  defers : List DStmt
  term : Bool
  inLoop : Bool
deriving DecidableEq

mutual

/-- cg_stmt (codegen.c 899-1196, the cases above): `ret` emits the defer
stack in reverse insertion order and then the ret terminator; an
expression statement emits its code; `defer` only pushes its body onto
the defer stack; `break`/`continue` emit a single branch to the loop
end/cond block (fatal outside a loop) and emit no deferred statements. -/
def cg_stmt : Nat → DSt → DStmt → Option DSt
  | 0, _, _ => none
  | fuel + 1, s, .ret v =>
      match emitDefers fuel s s.defers.reverse with
      | none => none
      | some s1 => some { s1 with out := s1.out ++ [.retI v], term := true }
  | _ + 1, s, .exprS t => some { s with out := s.out ++ [.stmt t] }
  | _ + 1, s, .deferS b => some { s with defers := s.defers ++ [b] }
  | _ + 1, s, .breakS =>
      if s.inLoop then some { s with out := s.out ++ [.brEnd], term := true } else none
  | _ + 1, s, .contS =>
      if s.inLoop then some { s with out := s.out ++ [.brCond], term := true } else none
termination_by fuel _ _ => (fuel, 0)

/-- The defer-emission loop of ND_RET (codegen.c 907-909): run cg_stmt
on each deferred statement, most recently pushed first (the argument
list is already reversed by the caller). -/
def emitDefers : Nat → DSt → List DStmt → Option DSt
  | _, s, [] => some s
  | fuel, s, d :: rest =>
      match cg_stmt fuel s d with
      | none => none
      | some s1 => emitDefers fuel s1 rest
termination_by fuel _ l => (fuel, l.length + 1)

end

/-- cg_block (codegen.c 892-897): lower statements in order, stopping as
soon as the current block has a terminator. -/
def cg_block : Nat → DSt → List DStmt → Option DSt
  | 0, _, _ => none
  | _ + 1, s, [] => some s
  | fuel + 1, s, st :: rest =>
      match cg_stmt (fuel + 1) s st with
      | none => none
      | some s1 => if s1.term then some s1 else cg_block (fuel + 1) s1 rest

/-- cg_fn_decl body lowering (codegen.c 1252, 1268-1280): the defer
stack starts empty; after the body, if the last block has no terminator
the defer stack is emitted in reverse insertion order and a default
return is built (`ret void` for void functions, a zero constant
otherwise). -/
def cg_fn_body (fuel : Nat) (body : List DStmt) (retVoid : Bool) : Option (List DEv) :=
  match cg_block fuel ⟨[], [], false, false⟩ body with
  | none => none
  | some s =>
      if s.term then some s.out
      else
        match emitDefers fuel s s.defers.reverse with
        | none => none
        | some s1 => some (s1.out ++ [.retI (if retVoid then none else some 0)])

/-! ## C2 — match lowering (codegen.c, cg_stmt ND_MATCH, lines 1149-1181)

A match over an integer scrutinee is lowered to a linear chain of
equality-compare diamonds sharing one end block.  Arm bodies are
abstracted to tags; a case value of `none` is the default arm, whose
body is emitted in place followed by a branch to the end block.  Any
arm emitted after a default arm would place a compare and a conditional
branch after that terminator in the same block, which the LLVM verifier
rejects (module verification always runs and aborts compilation), so
`emitChain` returns `none` for such arm lists. -/

/-- The lowered shape of a match: a chain of equality tests ending
either in a default body or in a fall-through to the end block. -/
inductive MChain where
  | test (value : Int) (body : Nat) (next : MChain)
  | stop (dflt : Option Nat)
deriving DecidableEq

/-- Emit the compare chain for the case list (codegen.c 1153-1176):
each non-default arm adds an equality diamond; a default arm is emitted
in place and ends the chain (any trailing arms make the IR invalid). -/
def emitChain : List (Option Int × Nat) → Option MChain
  | [] => some (.stop none)
  | (none, b) :: rest => if rest.isEmpty then some (.stop (some b)) else none
  | (some v, b) :: rest => (emitChain rest).map (MChain.test v b)

/-- Execution of the emitted chain: each test transfers control to its
body when the scrutinee equals the case value, else falls to the next
diamond; the chain end runs the default body if present, else control
reaches the shared end block (`none`). -/
def chainRun (scrut : Int) : MChain → Option Nat
  | .test v b next => if scrut = v then some b else chainRun scrut next
  | .stop d => d

/-- Modelled from the spec: dispatch of a match statement as described —
the body of the first arm whose case value equals the scrutinee,
otherwise the default arm's body if one is present, otherwise nothing. -/
def specDispatch (scrut : Int) (arms : List (Option Int × Nat)) : Option Nat :=
  match arms.find? (fun a => a.1 == some scrut) with
  | some a => some a.2
  | none => (arms.find? (fun a => a.1 == none)).map Prod.snd

/-! ## Parser embedding (parser.c) — used by C4, C7 and C10

The parser is embedded over token lists (the lexer is abstracted: a
token list plays the role of the `Parser` struct, whose saved/restored
lexer state is simply keeping hold of a list).  The end of the list is
TOK_EOF.  The embedding covers the token fragment the claims exercise;
keyword statements not in the fragment (if/while/for/match/defer, asm,
comptime, del, enums, float and string literals) are outside the token
type and therefore outside the modelled streams.  Parsing failure
(`es_error_at`, which aborts compilation) is `none`, and every parsing
function is fuelled, returning `none` when fuel runs out. -/

set_option maxHeartbeats 2000000 in
/-- The token kinds of lexer.h needed by the embedded fragment. -/
inductive Tok where
  | ext | fn | st | use
  | ret | brk | cont | var
  | i8 | i16 | i32 | i64 | u8 | u16 | u32 | u64 | f32 | f64 | voidT | boolT
  | intLit (value : Int)
  | ident (name : String)
  | plus | minus | star | slash | percent
  | amp | pipe | caret | bang
  | eq | neq | lt | gt | leq | geq | land | lor | shl | shr
  | question | assign | declAssign | colon | arrow | dot | ellipsis
  | range | rangeInc | pipeOp | comma
  | plusEq | minusEq | starEq | slashEq | percentEq
  | lparen | rparen | lbrace | rbrace | lbracket | rbracket
  | semi | newline
  | asKw | sz | nullKw | nw

/-- The numeric TokenKind of a token (the enum values of lexer.h).
The C parser's `check`/`expect` compare this kind field only. -/
def Tok.kind : Tok → Nat
  | .ext => 0
  | .fn => 1
  | .ret => 2
  | .st => 6
  | .use => 7
  | .asKw => 8
  | .sz => 9
  | .nullKw => 10
  | .brk => 11
  | .cont => 12
  | .nw => 13
  | .var => 21
  | .i8 => 32
  | .i16 => 33
  | .i32 => 34
  | .i64 => 35
  | .u8 => 36
  | .u16 => 37
  | .u32 => 38
  | .u64 => 39
  | .f32 => 40
  | .f64 => 41
  | .voidT => 42
  | .boolT => 43
  | .intLit _ => 48
  | .ident _ => 52
  | .plus => 64
  | .minus => 65
  | .star => 66
  | .slash => 67
  | .percent => 68
  | .amp => 69
  | .pipe => 70
  | .caret => 71
  | .bang => 73
  | .eq => 74
  | .neq => 75
  | .lt => 76
  | .gt => 77
  | .leq => 78
  | .geq => 79
  | .land => 80
  | .lor => 81
  | .shl => 82
  | .shr => 83
  | .question => 84
  | .assign => 85
  | .plusEq => 86
  | .minusEq => 87
  | .starEq => 88
  | .slashEq => 89
  | .percentEq => 90
  | .declAssign => 91
  | .colon => 92
  | .arrow => 93
  | .dot => 94
  | .ellipsis => 95
  | .range => 96
  | .rangeInc => 97
  | .pipeOp => 98
  | .comma => 99
  | .lparen => 112
  | .rparen => 113
  | .lbrace => 114
  | .rbrace => 115
  | .lbracket => 116
  | .rbracket => 117
  | .semi => 120
  | .newline => 121

/-- The expression AST built by the parser (ast.h expression nodes;
binary/unary carry their operator token as in the C `TokenKind op`). -/
inductive PNode where
  | intLit (value : Int)
  | nullLit
  | ident (name : String)
  | call (callee : PNode) (args : List PNode)
  | binary (op : Tok) (left right : PNode)
  | unary (op : Tok) (operand : PNode)
  | field (object : PNode) (fieldName : String)
  | index (object indexE : PNode)
  | cast (expr : PNode) (target : EsType)
  | ternary (cond thenE elseE : PNode)
  | sizeofE (target : EsType)
  | structInit (stype : EsType) (fields : List (String × PNode))

/-- The statement AST built by the parser (fragment). -/
inductive PStmt where
  | ret (value : Option PNode)
  | exprStmt (expr : PNode)
  | declStmt (name : String) (declType : Option EsType) (init : Option PNode)
  | assign (target value : PNode)
  | breakS
  | contS

/-- Top-level declarations built by the parser. -/
inductive PDecl where
  | extDecl (name : String) (params : List (String × EsType)) (ret : EsType) (is_vararg : Bool)
  | fnDecl (name : String) (params : List (String × EsType)) (ret : EsType) (body : List PStmt)
  | stDecl (name : String) (fields : List (String × EsType))

/-- skip_nl: consume newline and semicolon tokens. -/
def skip_nl : List Tok → List Tok
  | .newline :: rest => skip_nl rest
  | .semi :: rest => skip_nl rest
  | toks => toks

/-- expect: consume the given token kind or fail (at EOF there is no
token of the kind, so expect fails). -/
def expectTok (k : Tok) : List Tok → Option (List Tok)
  | t :: rest => if t.kind == k.kind then some rest else none
  | [] => none

/-- expect_nl_or_end (parser.c 42-47): consume a newline/semicolon and
any following ones; at a closing brace or EOF consume nothing; anything
else is a parse error. -/
def expect_nl_or_end : List Tok → Option (List Tok)
  | .newline :: rest => some (skip_nl rest)
  | .semi :: rest => some (skip_nl rest)
  | .rbrace :: rest => some (.rbrace :: rest)
  | [] => some []
  | _ => none

/-- is_type_start (parser.c 122-132): token kinds that begin a type. -/
def is_type_start : List Tok → Bool
  | .i8 :: _ | .i16 :: _ | .i32 :: _ | .i64 :: _ => true
  | .u8 :: _ | .u16 :: _ | .u32 :: _ | .u64 :: _ => true
  | .f32 :: _ | .f64 :: _ | .voidT :: _ | .boolT :: _ => true
  | .star :: _ | .lbracket :: _ => true
  | _ => false

/-- The primitive type keywords and the type they parse to
(parser.c 93-106; `bool` lowers to i32). -/
def basicType : Tok → Option EsType
  | .i8 => some .i8
  | .i16 => some .i16
  | .i32 => some .i32
  | .i64 => some .i64
  | .u8 => some .u8
  | .u16 => some .u16
  | .u32 => some .u32
  | .u64 => some .u64
  | .f32 => some .f32
  | .f64 => some .f64
  | .voidT => some .void
  | .boolT => some .i32
  | _ => none

/-- check (parser.c 29): is the current token of the given kind?
The head of the token list is the current token; an empty list is EOF,
whose kind matches none of the checked kinds. -/
def checkTok (toks : List Tok) (k : Tok) : Bool :=
  match toks with
  | t :: _ => t.kind == k.kind
  | [] => false

/-- The name of the current token when it is an identifier. -/
def identHead? : List Tok → Option String
  | .ident n :: _ => some n
  | _ => none

/-- The value of the current token when it is an integer literal. -/
def intHead? : List Tok → Option Int
  | .intLit v :: _ => some v
  | _ => none

/-- The parameter loop (parser.c 150-188): a trailing `...` sets the
vararg flag; with `allow_anon` a bare type or bare identifier is an
anonymous parameter named `_pN`; `ident : type` is a named parameter;
a bare identifier otherwise defaults to type i32.  The mutual recursion
with parse_type in the C is tied through the argument `pt` (parse_type
at one fuel level lower). -/
def paramsLoopF (pt : List Tok → Option (EsType × List Tok)) :
    Nat → Bool → List (String × EsType) → Nat → List Tok →
    Option (List (String × EsType) × Bool × List Tok)
  | 0, _, _, _, _ => none
  | fuel + 1, allow_anon, acc, anonIdx, toks =>
    if checkTok toks .ellipsis then some (acc, true, toks.tail)
    else if allow_anon && is_type_start toks then
      match pt toks with
      | none => none
      | some (ty, rest) =>
          let pm := ("_p" ++ toString anonIdx, ty)
          if checkTok rest .comma then
            paramsLoopF pt fuel allow_anon (acc ++ [pm]) (anonIdx + 1) rest.tail
          else some (acc ++ [pm], false, rest)
    else
      match identHead? toks with
      | none => none
      | some n =>
        let rest := toks.tail
        if checkTok rest .colon then
          match pt rest.tail with
          | none => none
          | some (ty, rest2) =>
              let pm := (n, ty)
              if checkTok rest2 .comma then
                paramsLoopF pt fuel allow_anon (acc ++ [pm]) anonIdx rest2.tail
              else some (acc ++ [pm], false, rest2)
        else if allow_anon then
          let pm := ("_p" ++ toString anonIdx, EsType.strct n)
          if checkTok rest .comma then
            paramsLoopF pt fuel allow_anon (acc ++ [pm]) (anonIdx + 1) rest.tail
          else some (acc ++ [pm], false, rest)
        else
          let pm := (n, EsType.i32)
          if checkTok rest .comma then
            paramsLoopF pt fuel allow_anon (acc ++ [pm]) anonIdx rest.tail
          else some (acc ++ [pm], false, rest)

/-- parse_params entry (parser.c 135-148): empty list before `)`, or a
lone `...`, or the parameter loop. -/
def parse_paramsF (pt : List Tok → Option (EsType × List Tok)) (fuel : Nat)
    (allow_anon : Bool) (toks : List Tok) :
    Option (List (String × EsType) × Bool × List Tok) :=
  if checkTok toks .rparen then some ([], false, toks)
  else if checkTok toks .ellipsis then some ([], true, toks.tail)
  else paramsLoopF pt fuel allow_anon [] 0 toks

/-- parse_type (parser.c 61-119): `*fn(...) -> T` function pointer,
`*T` pointer, `[N] T` array, a primitive keyword (`bool` lowers to
i32), or a bare identifier as a named struct type. -/
def parse_type : Nat → List Tok → Option (EsType × List Tok)
  | 0, _ => none
  | fuel + 1, toks =>
    if checkTok toks .star then
      let rest := toks.tail
      if checkTok rest .fn then
        (do
          let rest2 ← expectTok .lparen rest.tail
          let (params, va, rest3) ← parse_paramsF (fun tk => parse_type fuel tk) fuel true rest2
          let rest4 ← expectTok .rparen rest3
          if checkTok rest4 .arrow then do
            let (ret, rest5) ← parse_type fuel rest4.tail
            some (EsType.ptr (.fn ret (params.map Prod.snd) va), rest5)
          else some (EsType.ptr (.fn .void (params.map Prod.snd) va), rest4))
      else do
        let (base, rest2) ← parse_type fuel rest
        some (EsType.ptr base, rest2)
    else if checkTok toks .lbracket then
      match intHead? toks.tail with
      | none => none
      | some n => do
          let rest2 ← expectTok .rbracket toks.tail.tail
          let (elem, rest3) ← parse_type fuel rest2
          some (EsType.array n.toNat elem, rest3)
    else
      match toks with
      | [] => none
      | t :: rest =>
        match basicType t with
        | some ty => some (ty, rest)
        | none =>
          match t with
          | .ident n => some (EsType.strct n, rest)
          | _ => none

/-- parse_params with the parse_type knot tied at the given fuel. -/
def parse_params (fuel : Nat) (allow_anon : Bool) (toks : List Tok) :
    Option (List (String × EsType) × Bool × List Tok) :=
  parse_paramsF (fun tk => parse_type fuel tk) fuel allow_anon toks

/-! ### Expression parsing (parser.c 246-515)

The mutual recursion of the C recursive-descent functions is tied
through the argument `pe`, which is `parse_expr` at one fuel level
lower; `parse_expr` below closes the knot by structural recursion on
the fuel. -/

/-- binop_prec (parser.c 437-452). -/
def binop_prec : Tok → Int
  | .range | .rangeInc => 1
  | .lor => 2
  | .land => 3
  | .pipe => 4
  | .caret => 5
  | .amp => 6
  | .eq | .neq => 7
  | .lt | .gt | .leq | .geq => 8
  | .shl | .shr => 9
  | .plus | .minus => 10
  | .star | .slash | .percent => 11
  | _ => -1

/-- The pipeline rewrite step (parser.c 492-512): `x |> f(args)` inserts
`x` as the first argument of the call; `x |> f` wraps `f` in a call with
`x` as the only argument; any other right-hand side is a parse error. -/
def pipe_rewrite (lhs rhs : PNode) : Option PNode :=
  match rhs with
  | .call c args => some (.call c (lhs :: args))
  | .ident f => some (.call (.ident f) [lhs])
  | _ => none

/-- looks_like_struct_init (parser.c 225-244): after `{` and newlines,
either `}` or `ident :` begins a struct-init literal. -/
def looksLikeStructInit (toks : List Tok) : Bool :=
  if checkTok toks .lbrace then
    let rest := skip_nl toks.tail
    if checkTok rest .rbrace then true
    else
      match identHead? rest with
      | some _ => checkTok rest.tail .colon
      | none => false
  else false

/-- The field loop of parse_struct_init_literal (parser.c 199-213). -/
def structInitLoopF (pe : List Tok → Option (PNode × List Tok)) :
    Nat → List (String × PNode) → List Tok → Option (List (String × PNode) × List Tok)
  | 0, _, _ => none
  | f + 1, acc, toks =>
    if checkTok toks .rbrace then some (acc, toks.tail)
    else
      match toks with
      | [] => none
      | _ =>
        match identHead? toks with
        | none => none
        | some fname =>
          match expectTok .colon toks.tail with
          | none => none
          | some rest2 =>
            match pe rest2 with
            | none => none
            | some (v, rest3) =>
              let rest4 := if checkTok rest3 .comma then skip_nl rest3.tail else skip_nl rest3
              structInitLoopF pe f (acc ++ [(fname, v)]) rest4

/-- parse_struct_init_literal (parser.c 195-221). -/
def parse_struct_initF (pe : List Tok → Option (PNode × List Tok)) (fuel : Nat)
    (ty : EsType) (toks : List Tok) : Option (PNode × List Tok) :=
  match expectTok .lbrace toks with
  | none => none
  | some rest =>
    match structInitLoopF pe fuel [] (skip_nl rest) with
    | none => none
    | some (fields, rest2) => some (.structInit ty fields, rest2)

/-- parse_primary (parser.c 247-342) on the embedded token fragment:
integer literal, null, identifier (with the struct-init lookahead),
parenthesised expression, sizeof, and `nw T` desugaring to
`malloc(sz T) as *T` (or a struct-init literal when a `{` follows). -/
def parse_primaryF (pe : List Tok → Option (PNode × List Tok)) (fuel : Nat)
    (toks : List Tok) : Option (PNode × List Tok) :=
  match intHead? toks with
  | some v => some (.intLit v, toks.tail)
  | none =>
    if checkTok toks .nullKw then some (.nullLit, toks.tail)
    else
      match identHead? toks with
      | some n =>
        let rest := toks.tail
        if checkTok rest .lbrace && looksLikeStructInit rest then
          parse_struct_initF pe fuel (EsType.strct n) rest
        else some (.ident n, rest)
      | none =>
        if checkTok toks .lparen then
          match pe toks.tail with
          | none => none
          | some (e, rest2) =>
            match expectTok .rparen rest2 with
            | none => none
            | some rest3 => some (e, rest3)
        else if checkTok toks .sz then
          match parse_type fuel toks.tail with
          | none => none
          | some (ty, rest2) => some (.sizeofE ty, rest2)
        else if checkTok toks .nw then
          match parse_type fuel toks.tail with
          | none => none
          | some (ty, rest2) =>
            if checkTok rest2 .lbrace then parse_struct_initF pe fuel ty rest2
            else some (.cast (.call (.ident "malloc") [.sizeofE ty]) (.ptr ty), rest2)
        else none

/-- The call-argument loop (parser.c 351-359): newline-tolerant
comma-separated expressions. -/
def parse_argsF (pe : List Tok → Option (PNode × List Tok)) :
    Nat → List PNode → List Tok → Option (List PNode × List Tok)
  | 0, _, _ => none
  | f + 1, acc, toks =>
    match pe (skip_nl toks) with
    | none => none
    | some (e, rest) =>
      let rest2 := skip_nl rest
      if checkTok rest2 .comma then parse_argsF pe f (acc ++ [e]) rest2.tail
      else some (acc ++ [e], rest2)

/-- parse_postfix (parser.c 344-395): calls, field access and
indexing bind tighter than unary operators. -/
def parse_postopsF (pe : List Tok → Option (PNode × List Tok)) :
    Nat → PNode → List Tok → Option (PNode × List Tok)
  | 0, _, _ => none
  | f + 1, left, toks =>
    if checkTok toks .lparen then
      let rest := toks.tail
      if checkTok rest .rparen then parse_postopsF pe f (.call left []) rest.tail
      else
        match parse_argsF pe f [] rest with
        | none => none
        | some (args, rest2) =>
          match expectTok .rparen rest2 with
          | none => none
          | some rest3 => parse_postopsF pe f (.call left args) rest3
    else if checkTok toks .dot then
      match identHead? toks.tail with
      | none => none
      | some n => parse_postopsF pe f (.field left n) toks.tail.tail
    else if checkTok toks .lbracket then
      match pe toks.tail with
      | none => none
      | some (idx, rest2) =>
        match expectTok .rbracket rest2 with
        | none => none
        | some rest3 => parse_postopsF pe f (.index left idx) rest3
    else some (left, toks)

/-- parse_unary (parser.c 397-419): prefix `& * ! -` chains, then a
primary with its postfix operators. -/
def parse_unaryF (pe : List Tok → Option (PNode × List Tok)) :
    Nat → List Tok → Option (PNode × List Tok)
  | 0, _ => none
  | f + 1, toks =>
    let uop : Option Tok :=
      if checkTok toks .amp then some .amp
      else if checkTok toks .star then some .star
      else if checkTok toks .bang then some .bang
      else if checkTok toks .minus then some .minus
      else none
    match uop with
    | some op =>
      match parse_unaryF pe f toks.tail with
      | none => none
      | some (operand, rest) => some (.unary op operand, rest)
    | none =>
      match parse_primaryF pe f toks with
      | none => none
      | some (prim, rest) => parse_postopsF pe f prim rest

/-- The `as`-cast loop (parser.c 423-434). -/
def castLoopF : Nat → PNode → List Tok → Option (PNode × List Tok)
  | 0, _, _ => none
  | f + 1, e, toks =>
    if checkTok toks .asKw then
      match parse_type f toks.tail with
      | none => none
      | some (ty, rest2) => castLoopF f (.cast e ty) rest2
    else some (e, toks)

/-- parse_cast (parser.c 423-434): a unary expression followed by any
number of `as type` casts. -/
def parse_castF (pe : List Tok → Option (PNode × List Tok)) (fuel : Nat)
    (toks : List Tok) : Option (PNode × List Tok) :=
  match fuel with
  | 0 => none
  | f + 1 =>
    match parse_unaryF pe f toks with
    | none => none
    | some (e, rest) => castLoopF f e rest

/-- The precedence-climbing loop of parse_binop (parser.c 456-469);
`pb` is parse_binop itself, for the right operand. -/
def binopLoopF (pb : Int → List Tok → Option (PNode × List Tok)) :
    Nat → Int → PNode → List Tok → Option (PNode × List Tok)
  | 0, _, _, _ => none
  | f + 1, minPrec, left, toks =>
    match toks.head? with
    | none => some (left, toks)
    | some t =>
      let prec := binop_prec t
      if prec < minPrec then some (left, toks)
      else
        let nextMin :=
          if t.kind == Tok.range.kind || t.kind == Tok.rangeInc.kind then prec else prec + 1
        match pb nextMin toks.tail with
        | none => none
        | some (right, rest) => binopLoopF pb f minPrec (.binary t left right) rest

/-- parse_binop (parser.c 454-471). -/
def parse_binopF (pe : List Tok → Option (PNode × List Tok)) :
    Nat → Int → List Tok → Option (PNode × List Tok)
  | 0, _, _ => none
  | f + 1, minPrec, toks =>
    match parse_castF pe f toks with
    | none => none
    | some (left, rest) =>
      binopLoopF (fun mp tk => parse_binopF pe f mp tk) f minPrec left rest

/-- The pipeline loop of parse_expr (parser.c 488-513): while the
current token is `|>`, parse the right-hand side as a binop expression
and apply the pipe rewrite. -/
def pipeLoopF (pb : List Tok → Option (PNode × List Tok)) :
    Nat → PNode → List Tok → Option (PNode × List Tok)
  | 0, _, _ => none
  | f + 1, e, toks =>
    if checkTok toks .pipeOp then
      match pb toks.tail with
      | none => none
      | some (rhs, rest2) =>
        match pipe_rewrite e rhs with
        | none => none
        | some e2 => pipeLoopF pb f e2 rest2
    else some (e, toks)

/-- parse_expr (parser.c 473-515): a binop expression at minimum
precedence 1, an optional ternary, then the pipeline loop. -/
def parse_expr : Nat → List Tok → Option (PNode × List Tok)
  | 0, _ => none
  | fuel + 1, toks =>
    let pe := fun tk => parse_expr fuel tk
    match parse_binopF pe fuel 1 toks with
    | none => none
    | some (e, rest) =>
      let tern : Option (PNode × List Tok) :=
        if checkTok rest .question then
          match parse_expr fuel rest.tail with
          | none => none
          | some (t, rA) =>
            match expectTok .colon rA with
            | none => none
            | some rB =>
              match parse_expr fuel rB with
              | none => none
              | some (els, rC) => some (PNode.ternary e t els, rC)
        else some (e, rest)
      match tern with
      | none => none
      | some (e2, rest2) => pipeLoopF (fun tk => parse_binopF pe fuel 1 tk) fuel e2 rest2

/-! ### Statement parsing (parser.c 538-927, embedded fragment) -/

/-- The compound-assignment desugaring table (parser.c 897-908). -/
def compoundBinop : Tok → Option Tok
  | .plusEq => some .plus
  | .minusEq => some .minus
  | .starEq => some .star
  | .slashEq => some .slash
  | .percentEq => some .percent
  | _ => none

/-- The expression/assignment tail of parse_stmt (parser.c 882-926):
plain assignment, compound assignment desugared to
`target = target op value`, or an expression statement. -/
def stmt_expr_tail (pe : List Tok → Option (PNode × List Tok)) (toks : List Tok) :
    Option (PStmt × List Tok) :=
  match pe toks with
  | none => none
  | some (e, rest) =>
    if checkTok rest .assign then
      match pe rest.tail with
      | none => none
      | some (v, rest2) =>
        match expect_nl_or_end rest2 with
        | none => none
        | some rest3 => some (.assign e v, rest3)
    else
      match rest.head?.bind compoundBinop with
      | some bop =>
        match pe rest.tail with
        | none => none
        | some (v, rest2) =>
          match expect_nl_or_end rest2 with
          | none => none
          | some rest3 => some (.assign e (.binary bop e v), rest3)
      | none =>
        match expect_nl_or_end rest with
        | none => none
        | some rest2 => some (.exprStmt e, rest2)

/-- parse_stmt (parser.c 538-927) on the embedded fragment: `ret`,
`brk`, `cont`, `var` declarations, the `print`/`check` statement
rewrite, `ID := expr` / `ID : type (= expr)?` declarations, and the
expression/assignment fallback. -/
def parse_stmt : Nat → List Tok → Option (PStmt × List Tok)
  | 0, _ => none
  | fuel + 1, toks =>
    let pe := fun tk => parse_expr fuel tk
    if checkTok toks .ret then
      let rest := toks.tail
      if checkTok rest .newline || checkTok rest .rbrace || rest.isEmpty then
        match expect_nl_or_end rest with
        | none => none
        | some rest2 => some (.ret none, rest2)
      else
        match pe rest with
        | none => none
        | some (v, rest2) =>
          match expect_nl_or_end rest2 with
          | none => none
          | some rest3 => some (.ret (some v), rest3)
    else if checkTok toks .brk then
      (expect_nl_or_end toks.tail).map (fun r => (.breakS, r))
    else if checkTok toks .cont then
      (expect_nl_or_end toks.tail).map (fun r => (.contS, r))
    else if checkTok toks .var then
      let rest0 := toks.tail
      let rest1 :=
        match identHead? rest0 with
        | some m => if m = "mut" then rest0.tail else rest0
        | none => rest0
      match identHead? rest1 with
      | none => none
      | some vn =>
        let rest2 := rest1.tail
        if checkTok rest2 .declAssign || checkTok rest2 .assign then
          match pe rest2.tail with
          | none => none
          | some (init, rest3) =>
            match expect_nl_or_end rest3 with
            | none => none
            | some rest4 => some (.declStmt vn none (some init), rest4)
        else if checkTok rest2 .colon then
          match parse_type fuel rest2.tail with
          | none => none
          | some (ty, rest3) =>
            if checkTok rest3 .assign then
              match pe rest3.tail with
              | none => none
              | some (init, rest4) =>
                match expect_nl_or_end rest4 with
                | none => none
                | some rest5 => some (.declStmt vn (some ty) (some init), rest5)
            else
              match expect_nl_or_end rest3 with
              | none => none
              | some rest4 => some (.declStmt vn (some ty) none, rest4)
        else none
    else
      match identHead? toks with
      | some n =>
        let rest := toks.tail
        let isPC := n = "print" || n = "check"
        let pcApplies := isPC &&
          !(checkTok rest .declAssign || checkTok rest .colon || checkTok rest .newline ||
            checkTok rest .semi || rest.isEmpty || checkTok rest .rbrace)
        if pcApplies then
          match pe rest with
          | none => none
          | some (arg, rest2) =>
            match expect_nl_or_end rest2 with
            | none => none
            | some rest3 => some (.exprStmt (.call (.ident n) [arg]), rest3)
        else if checkTok rest .declAssign then
          match pe rest.tail with
          | none => none
          | some (init, rest2) =>
            match expect_nl_or_end rest2 with
            | none => none
            | some rest3 => some (.declStmt n none (some init), rest3)
        else if checkTok rest .colon then
          match parse_type fuel rest.tail with
          | none => none
          | some (ty, rest2) =>
            if checkTok rest2 .assign then
              match pe rest2.tail with
              | none => none
              | some (init, rest3) =>
                match expect_nl_or_end rest3 with
                | none => none
                | some rest4 => some (.declStmt n (some ty) (some init), rest4)
            else
              match expect_nl_or_end rest2 with
              | none => none
              | some rest3 => some (.declStmt n (some ty) none, rest3)
        else stmt_expr_tail pe toks
      | none => stmt_expr_tail pe toks

/-- The statement loop of parse_block (parser.c 520-536). -/
def blockLoopF (ps : List Tok → Option (PStmt × List Tok)) :
    Nat → List PStmt → List Tok → Option (List PStmt × List Tok)
  | 0, _, _ => none
  | f + 1, acc, toks =>
    if checkTok toks .rbrace then some (acc, toks.tail)
    else
      match toks with
      | [] => none
      | _ =>
        match ps toks with
        | none => none
        | some (st, rest) => blockLoopF ps f (acc ++ [st]) (skip_nl rest)

/-- parse_block (parser.c 520-536): `{`, newline-separated statements,
`}`.  The block node is its list of statements. -/
def parse_block (fuel : Nat) (toks : List Tok) : Option (List PStmt × List Tok) :=
  match expectTok .lbrace toks with
  | none => none
  | some rest => blockLoopF (fun tk => parse_stmt fuel tk) fuel [] (skip_nl rest)

/-! ### Declaration parsing (parser.c 929-1116) and the top level
(parser.c 1172-1263) -/

/-- Whether a type is void (TY_VOID kind test). -/
def retIsVoid : EsType → Bool
  | .void => true
  | _ => false

/-- Whether a statement is a `return expr` (parser.c 957-976,
block_has_return_value restricted to the embedded statement fragment,
which has no nested blocks). -/
def stmtHasRetVal : PStmt → Bool
  | .ret (some _) => true
  | _ => false

/-- block_has_return_value on a block's statement list. -/
def block_has_return_value (body : List PStmt) : Bool := body.any stmtHasRetVal

/-- The implicit-return rewrite (parser.c 1022-1029): in a non-void,
non-main function whose body ends in an expression statement, that last
statement's tag is rewritten to `ret` (keeping the expression). -/
def implicit_ret_rewrite (is_main : Bool) (ret : EsType) (body : List PStmt) : List PStmt :=
  if !retIsVoid ret && !is_main then
    match body.getLast? with
    | some (PStmt.exprStmt e) => body.dropLast ++ [PStmt.ret (some e)]
    | _ => body
  else body

/-- parse_fn_decl (parser.c 978-1038): optional `fn` keyword, name,
optional parenthesised parameters (`allow_anon` false), optional
`-> type` (default: i32 for `main`, void otherwise), then either a
one-liner `= expr` body (wrapped as `ret expr`, inferring i32) or a
block body (inferring i32 when the body returns a value), followed by
the implicit-return rewrite. -/
def parse_fn_decl : Nat → Bool → List Tok → Option (PDecl × List Tok)
  | 0, _, _ => none
  | f + 1, has_kw, toks0 =>
    let pe := fun tk => parse_expr f tk
    match (if has_kw then expectTok .fn toks0 else some toks0) with
    | none => none
    | some toks1 =>
      match identHead? toks1 with
      | none => none
      | some name =>
        let rest := toks1.tail
        let is_main := name = "main"
        let pstep : Option (List (String × EsType) × Bool × List Tok) :=
          if checkTok rest .lparen then
            match parse_params f false rest.tail with
            | none => none
            | some (params, va, rest2) =>
              match expectTok .rparen rest2 with
              | none => none
              | some rest3 => some (params, va, rest3)
          else some ([], false, rest)
        match pstep with
        | none => none
        | some (params, _va, rest4) =>
          let rstep : Option (EsType × List Tok) :=
            if checkTok rest4 .arrow then parse_type f rest4.tail
            else some ((if is_main then EsType.i32 else EsType.void), rest4)
          match rstep with
          | none => none
          | some (ret0, rest5) =>
            if checkTok rest5 .assign then
              match pe rest5.tail with
              | none => none
              | some (val, rest6) =>
                match expect_nl_or_end rest6 with
                | none => none
                | some rest7 =>
                  let body := [PStmt.ret (some val)]
                  let ret1 := if retIsVoid ret0 && !is_main then EsType.i32 else ret0
                  some (.fnDecl name params ret1 (implicit_ret_rewrite is_main ret1 body), rest7)
            else
              match parse_block f rest5 with
              | none => none
              | some (body, rest6) =>
                let ret1 :=
                  if retIsVoid ret0 && !is_main && block_has_return_value body then EsType.i32
                  else ret0
                some (.fnDecl name params ret1 (implicit_ret_rewrite is_main ret1 body), rest6)

/-- parse_ext_decl (parser.c 930-955): `ext name(params) -> ret?` with
anonymous parameters and variadics allowed. -/
def parse_ext_decl : Nat → List Tok → Option (PDecl × List Tok)
  | 0, _ => none
  | f + 1, toks =>
    match expectTok .ext toks with
    | none => none
    | some rest =>
      match identHead? rest with
      | none => none
      | some name =>
        match expectTok .lparen rest.tail with
        | none => none
        | some rest2 =>
          match parse_params f true rest2 with
          | none => none
          | some (params, va, rest3) =>
            match expectTok .rparen rest3 with
            | none => none
            | some rest4 =>
              let rstep : Option (EsType × List Tok) :=
                if checkTok rest4 .arrow then parse_type f rest4.tail
                else some (EsType.void, rest4)
              match rstep with
              | none => none
              | some (ret, rest5) =>
                match expect_nl_or_end rest5 with
                | none => none
                | some rest6 => some (.extDecl name params ret va, rest6)

/-- The field loop of parse_st_decl (parser.c 1047-1055). -/
def stFieldsLoop : Nat → List (String × EsType) → List Tok →
    Option (List (String × EsType) × List Tok)
  | 0, _, _ => none
  | f + 1, acc, toks =>
    if checkTok toks .rbrace then some (acc, toks.tail)
    else
      match identHead? toks with
      | none => none
      | some fname =>
        match expectTok .colon toks.tail with
        | none => none
        | some rest2 =>
          match parse_type f rest2 with
          | none => none
          | some (ty, rest3) => stFieldsLoop f (acc ++ [(fname, ty)]) (skip_nl rest3)

/-- parse_st_decl (parser.c 1040-1063): optional `st` keyword, name,
then `ident : type` fields in braces. -/
def parse_st_decl : Nat → Bool → List Tok → Option (PDecl × List Tok)
  | 0, _, _ => none
  | f + 1, has_kw, toks0 =>
    match (if has_kw then expectTok .st toks0 else some toks0) with
    | none => none
    | some toks1 =>
      match identHead? toks1 with
      | none => none
      | some name =>
        match expectTok .lbrace toks1.tail with
        | none => none
        | some rest =>
          match stFieldsLoop f [] (skip_nl rest) with
          | none => none
          | some (fields, rest2) => some (.stDecl name fields, rest2)

/-- parse_decl (parser.c 1095-1116): dispatch on the leading keyword;
with no keyword, an identifier followed by `(` begins a function
declaration and an identifier followed by `{` begins a struct
declaration (one-token lookahead with lexer-state save/restore). -/
def parse_decl (fuel : Nat) (toks : List Tok) : Option (PDecl × List Tok) :=
  if checkTok toks .ext then parse_ext_decl fuel toks
  else if checkTok toks .fn then parse_fn_decl fuel true toks
  else if checkTok toks .st then parse_st_decl fuel true toks
  else
    match identHead? toks with
    | some _ =>
      if checkTok toks.tail .lparen then parse_fn_decl fuel false toks
      else if checkTok toks.tail .lbrace then parse_st_decl fuel false toks
      else none
    | none => none

/-- The skip-to-matching-`)` scan of parser_parse (parser.c 1220-1228):
track paren depth over the raw token stream; the matching `)` is
consumed; at EOF the stream is exhausted. -/
def skipParens : Nat → List Tok → List Tok
  | _, [] => []
  | depth, t :: rest =>
    let d :=
      if t.kind == Tok.lparen.kind then depth + 1
      else if t.kind == Tok.rparen.kind then depth - 1
      else depth
    if d = 0 then rest
    else skipParens d rest

/-- The top-level loop of parser_parse (parser.c 1184-1244).  `use NAME`
loads a prelude file (file lookup is outside the embedding and modelled
as absent, contributing no declarations, as when the lib directory does
not exist); a leading `ext`/`fn`/`st` keyword parses a declaration; an
identifier followed by `{` parses a struct declaration; an identifier
followed by `(` parses a function declaration only when the token after
the matching `)` is `=`, `->` or `{`; anything else is collected as a
top-level statement. -/
def parser_parse_loop : Nat → List PDecl → List PStmt → List Tok →
    Option (List PDecl × List PStmt)
  | 0, _, _, _ => none
  | f + 1, decls, stmts, toks =>
    match toks with
    | [] => some (decls, stmts)
    | _ =>
      if checkTok toks .use then
        match identHead? toks.tail with
        | none => none
        | some _ =>
          match expect_nl_or_end toks.tail.tail with
          | none => none
          | some rest => parser_parse_loop f decls stmts (skip_nl rest)
      else if checkTok toks .ext || checkTok toks .fn || checkTok toks .st then
        match parse_decl f toks with
        | none => none
        | some (d, rest) => parser_parse_loop f (decls ++ [d]) stmts (skip_nl rest)
      else
        let declPath : Bool :=
          match identHead? toks with
          | none => false
          | some _ =>
            if checkTok toks.tail .lbrace then true
            else if checkTok toks.tail .lparen then
              let after := skipParens 1 toks.tail.tail
              checkTok after .assign || checkTok after .arrow || checkTok after .lbrace
            else false
        if declPath then
          match parse_decl f toks with
          | none => none
          | some (d, rest) => parser_parse_loop f (decls ++ [d]) stmts (skip_nl rest)
        else
          match parse_stmt f toks with
          | none => none
          | some (st, rest) => parser_parse_loop f decls (stmts ++ [st]) (skip_nl rest)

/-- parser_parse (parser.c 1172-1263), with the std-prelude auto-load
modelled as absent (the `--no-std` flag, or no lib directory): parse
top-level forms; when top-level statements exist, wrap them in a
synthesized `fn main() -> i32` appended after the declarations. -/
def parser_parse (fuel : Nat) (toks : List Tok) : Option (List PDecl) :=
  match parser_parse_loop fuel [] [] (skip_nl toks) with
  | none => none
  | some (decls, stmts) =>
    if stmts.isEmpty then some decls
    else some (decls ++ [.fnDecl "main" [] EsType.i32 stmts])

/-! ## C6 — the preprocessor (preproc.c)

Text is a list of characters (the C works on UTF-8 bytes and decodes
code points at the two emoji markers; the embedding works directly on
code points, which is the same function of the decoded text).  The
collection phase's parameter-list scan (preproc.c 66-73) advances only
over spaces, identifier characters and commas: on any other character
before the closing `)` it loops forever; this genuine non-termination
is modelled by `none` (the explicit progress check below).  Every other
loop of the preprocessor consumes at least one character per step, so
running the scanners with fuel `length + 1` never exhausts the fuel:
the fuel is a structural-recursion artifact only. -/

/-- ic (preproc.c 27): identifier character. -/
def ppIc (c : Char) : Bool := c.isAlphanum || c = '_'

/-- An identifier-start character (isalpha or underscore). -/
def ppIdentStart (c : Char) : Bool := c.isAlpha || c = '_'

/-- Space or tab. -/
def ppSpace (c : Char) : Bool := c = ' ' || c = '\t'

/-- The single-quote character (used by the char-literal pass-through). -/
def squoteC : Char := Char.ofNat 39

/-- A preprocessor macro (preproc.c PMac): name, parameters, body. -/
structure PMac where
  name : String
  params : List String
  body : List Char
deriving DecidableEq

/-- cem (preproc.c 40-44): match the given code point, consuming an
optional FE0F variation selector after it. -/
def chompEmoji (cp : Char) (l : List Char) : Option (List Char) :=
  match l with
  | [] => none
  | c :: rest =>
    if c = cp then
      match rest with
      | v :: rest2 => if v = Char.ofNat 0xFE0F then some rest2 else some rest
      | [] => some []
    else none

/-- The number of characters a string-literal scan consumes after the
opening quote: escape pairs are skipped, the closing quote is included;
an unterminated string consumes to the end (preproc.c 108-115,
137-144 and 165). -/
def strEndIdx : List Char → Nat
  | [] => 0
  | c :: rest =>
    if c = '"' then 1
    else if c = '\\' then
      match rest with
      | _ :: rest2 => 2 + strEndIdx rest2
      | [] => 1
    else 1 + strEndIdx rest

/-- The parameter-list scan of a macro definition (preproc.c 66-74):
skip spaces, take an identifier, skip spaces, consume a comma, until
the closing `)`.  When an iteration makes no progress (the current
character is none of these and not `)`), the C loop never terminates:
modelled as `none`. -/
def defParamsLoop : Nat → List String → List Char → Option (List String × List Char)
  | _, acc, [] => some (acc, [])
  | _, acc, ')' :: rest => some (acc, rest)
  | 0, _, _ => none
  | fuel + 1, acc, l =>
    let l1 := l.dropWhile ppSpace
    let nm := l1.takeWhile ppIc
    let l2 := l1.dropWhile ppIc
    let acc2 := if nm.isEmpty then acc else acc ++ [String.mk nm]
    let l3 := l2.dropWhile ppSpace
    let l4 := if l3.head? = some ',' then l3.tail else l3
    if l4.length < l.length then defParamsLoop fuel acc2 l4
    else none

/-- Recognition of a `⚡ name(params)? 👉 body` definition line
(preproc.c 52-94).  Outer `none` is the diverging parameter scan;
`some none` means the text is not a macro definition (the line is then
copied verbatim); `some (some (m, rest))` is a parsed definition and
the rest of the text after its line. -/
def macroDefParse (l : List Char) : Option (Option (PMac × List Char)) :=
  let l1 := l.dropWhile ppSpace
  match chompEmoji '⚡' l1 with
  | none => some none
  | some l2 =>
    let l3 := l2.dropWhile ppSpace
    let nm := l3.takeWhile ppIc
    let l4 := l3.dropWhile ppIc
    if nm.isEmpty then some none
    else
      match (if l4.head? = some '(' then defParamsLoop (l4.length + 1) [] l4.tail else some ([], l4)) with
      | none => none
      | some (ps, l5) =>
        let l6 := l5.dropWhile ppSpace
        match chompEmoji '👉' l6 with
        | none => some none
        | some l7 =>
          let l8 := l7.dropWhile ppSpace
          let body := l8.takeWhile (fun c => c ≠ '\n')
          let l9 := l8.dropWhile (fun c => c ≠ '\n')
          let l10 := if l9.head? = some '\n' then l9.tail else l9
          some (some (⟨String.mk nm, ps, body⟩, l10))

/-- Pass 1, collect (preproc.c 47-102): per line, either register a
macro definition and drop the line, or copy the line verbatim.  The
result is the macro table in registration order and the emitted text;
`none` is the diverging parameter scan. -/
def collectGo : Nat → List PMac → List Char → Option (List PMac × List Char)
  | _, ms, [] => some (ms, [])
  | 0, _, _ => none
  | fuel + 1, ms, l =>
    match macroDefParse l with
    | none => none
    | some (some (m, l10)) =>
      if l10.length < l.length then collectGo fuel (ms ++ [m]) l10
      else none
    | some none =>
      let k := (l.takeWhile (fun c => c ≠ '\n')).length
      let line := l.take k
      match l.drop k with
      | '\n' :: lrest =>
        match collectGo fuel ms lrest with
        | none => none
        | some (ms2, out) => some (ms2, line ++ '\n' :: out)
      | _ => some (ms, line)

/-- The argument scan of a macro invocation (preproc.c 162-172):
balanced parens, string-literal aware, split on top-level commas.
Returns the argument slices and the number of characters consumed
(including the matching `)`). -/
def argScanGo : Nat → List Char → Nat → List Char → List (List Char) → List (List Char) × Nat
  | _, [], _, cur, acc => (acc ++ [cur], 0)
  | 0, _, _, cur, acc => (acc ++ [cur], 0)
  | fuel + 1, c :: rest, depth, cur, acc =>
    if c = '"' then
      let k := strEndIdx rest
      let p := argScanGo fuel (rest.drop k) depth (cur ++ c :: rest.take k) acc
      (p.1, 1 + k + p.2)
    else if c = '(' then
      let p := argScanGo fuel rest (depth + 1) (cur ++ [c]) acc
      (p.1, 1 + p.2)
    else if c = ')' then
      if depth = 1 then (acc ++ [cur], 1)
      else
        let p := argScanGo fuel rest (depth - 1) (cur ++ [c]) acc
        (p.1, 1 + p.2)
    else if c = ',' then
      if depth = 1 then
        let p := argScanGo fuel rest depth [] (acc ++ [cur])
        (p.1, 1 + p.2)
      else
        let p := argScanGo fuel rest depth (cur ++ [c]) acc
        (p.1, 1 + p.2)
    else
      let p := argScanGo fuel rest depth (cur ++ [c]) acc
      (p.1, 1 + p.2)

/-- subst (preproc.c 105-129): copy the macro body, splicing argument
text for parameter occurrences at identifier boundaries; string
literals are copied untouched. -/
def substGo (params : List String) (args : List (List Char)) :
    Nat → List Char → Bool → List Char
  | _, [], _ => []
  | 0, _, _ => []
  | fuel + 1, c :: rest, prevIc =>
    if c = '"' then
      let k := strEndIdx rest
      c :: rest.take k ++ substGo params args fuel (rest.drop k) false
    else if ppIdentStart c && !prevIc then
      let k := (rest.takeWhile ppIc).length
      let w := c :: rest.take k
      let rest1 := rest.drop k
      let pi := params.indexOf (String.mk w)
      if pi < params.length && pi < args.length then
        args.getD pi [] ++ substGo params args fuel rest1 true
      else w ++ substGo params args fuel rest1 true
    else c :: substGo params args fuel rest (ppIc c)

/-- Pass 2, expand (preproc.c 132-187): copy text, skipping string
literals, char literals and line comments; at each identifier boundary
look the word up in the macro table (first match); a zero-arity macro
splices its body, an n-arity macro followed by `(` consumes its
arguments and splices the substituted body; anything else is copied.
The boolean result is the `changed` flag. -/
def expandGo (ms : List PMac) : Nat → List Char → Bool → List Char × Bool
  | _, [], _ => ([], false)
  | 0, _, _ => ([], false)
  | fuel + 1, c :: rest, prevIc =>
    if c = '"' then
      let k := strEndIdx rest
      let p := expandGo ms fuel (rest.drop k) false
      (c :: rest.take k ++ p.1, p.2)
    else if c = squoteC then
      if rest.tail.head? = some squoteC then
        let p := expandGo ms fuel (rest.drop 2) false
        (c :: rest.take 2 ++ p.1, p.2)
      else
        let p := expandGo ms fuel rest (ppIc c)
        (c :: p.1, p.2)
    else if c = '/' then
      if rest.head? = some '/' then
        let k := (rest.tail.takeWhile (fun d => d ≠ '\n')).length
        let p := expandGo ms fuel (rest.tail.drop k) false
        (c :: '/' :: rest.tail.take k ++ p.1, p.2)
      else
        let p := expandGo ms fuel rest (ppIc c)
        (c :: p.1, p.2)
    else if ppIdentStart c && !prevIc then
      let k := (rest.takeWhile ppIc).length
      let w := c :: rest.take k
      let rest1 := rest.drop k
      match ms.find? (fun m => m.name == String.mk w) with
      | some m =>
        if 0 < m.params.length then
          if rest1.head? = some '(' then
            let pr := argScanGo (rest1.tail.length + 1) rest1.tail 1 [] []
            let sOut := substGo m.params pr.1 (m.body.length + 1) m.body false
            let p := expandGo ms fuel (rest1.tail.drop pr.2) false
            (sOut ++ p.1, true)
          else
            let p := expandGo ms fuel rest1 true
            (w ++ p.1, p.2)
        else
          let p := expandGo ms fuel rest1 true
          (m.body ++ p.1, true)
      | none =>
        let p := expandGo ms fuel rest1 true
        (w ++ p.1, p.2)
    else
      let p := expandGo ms fuel rest (ppIc c)
      (c :: p.1, p.2)

/-- One expansion pass (preproc.c 132-187): `none` when the pass made
no change (the C returns NULL and the driver stops). -/
def expandPass (ms : List PMac) (src : List Char) : Option (List Char) :=
  let p := expandGo ms (src.length + 1) src false
  if p.2 then some p.1 else none

/-- The pass driver of preprocess (preproc.c 194-198): up to the given
number of passes, stopping as soon as a pass produces no change. -/
def ppLoop (ms : List PMac) : Nat → List Char → List Char
  | 0, cur => cur
  | k + 1, cur =>
    match expandPass ms cur with
    | none => cur
    | some e => ppLoop ms k e

/-- The number of expansion passes the driver runs. -/
def ppPassCount (ms : List PMac) : Nat → List Char → Nat
  | 0, _ => 0
  | k + 1, cur =>
    match expandPass ms cur with
    | none => 1
    | some e => ppPassCount ms k e + 1

/-- preprocess (preproc.c 190-200): collect definitions, then, if any
macro was registered, run up to 16 expansion passes.  `none` is the
diverging collection phase. -/
def preprocess (src : List Char) : Option (List Char) :=
  match collectGo (src.length + 1) [] src with
  | none => none
  | some (ms, txt) =>
    if ms.isEmpty then some txt
    else some (ppLoop ms 16 txt)

/-- The number of expansion passes preprocess runs on an input. -/
def preprocessPassCount (src : List Char) : Nat :=
  match collectGo (src.length + 1) [] src with
  | none => 0
  | some (ms, txt) =>
    if ms.isEmpty then 0
    else ppPassCount ms 16 txt

/-- Whether a parsed declaration is a function declaration of the given
name. -/
def declaresFnNamed (name : String) : PDecl → Bool
  | .fnDecl n _ _ _ => n == name
  | _ => false

/-! ## Theorems settling the claims -/

/-- Auxiliary for C2: the emitted compare chain dispatches like the
specified first-match rule, by induction on the arm list. -/
theorem chainRun_eq_specDispatch (scrut : Int) :
    ∀ (arms : List (Option Int × Nat)) (c : MChain),
      emitChain arms = some c → chainRun scrut c = specDispatch scrut arms := by
  intro arms
  induction arms with
  | nil =>
    intro c h
    simp only [emitChain, Option.some.injEq] at h
    subst h
    simp [chainRun, specDispatch]
  | cons a rest ih =>
    intro c h
    obtain ⟨val, body⟩ := a
    cases val with
    | none =>
      simp only [emitChain] at h
      by_cases hr : rest.isEmpty
      · rw [if_pos hr] at h
        obtain rfl : rest = [] := List.isEmpty_iff.mp hr
        obtain rfl : MChain.stop (some body) = c := Option.some.injEq _ _ |>.mp h
        simp [chainRun, specDispatch, List.find?]
      · rw [if_neg hr] at h
        exact absurd h (by simp)
    | some v =>
      simp only [emitChain, Option.map_eq_some'] at h
      obtain ⟨c2, hc2, rfl⟩ := h
      by_cases hv : scrut = v
      · subst hv
        simp [chainRun, specDispatch, List.find?]
      · have hvb : ((some v : Option Int) == some scrut) = false := by
          simp only [beq_eq_false_iff_ne, ne_eq, Option.some.injEq]
          exact fun hcontra => hv hcontra.symm
        simp only [chainRun, if_neg hv, ih c2 hc2, specDispatch, List.find?, hvb]
        simp

/-- C2: for a match over an integer scrutinee whose lowering succeeds
(the default arm, when present, is the last arm — any arm emitted after
a default would place instructions after a terminator and be rejected
by the verifier), the emitted linear chain of equality diamonds runs
the body of the first arm whose case value equals the scrutinee, else
the default body if present, else falls through to the end block. -/
theorem C2_match_first_arm_dispatch (scrut : Int) (arms : List (Option Int × Nat))
    (c : MChain) (h : emitChain arms = some c) :
    chainRun scrut c = specDispatch scrut arms :=
  chainRun_eq_specDispatch scrut arms c h

/-- C2 witness: a three-arm match `1 { 10 } 2 { 20 } _ { 30 }` lowered
and dispatched on scrutinee 2 selects body 20, the first equal arm. -/
theorem C2_match_first_arm_dispatch_witness :
    chainRun 2 (.test 1 10 (.test 2 20 (.stop (some 30)))) =
      specDispatch 2 [(some 1, 10), (some 2, 20), (none, 30)] :=
  C2_match_first_arm_dispatch 2 [(some 1, 10), (some 2, 20), (none, 30)]
    (.test 1 10 (.test 2 20 (.stop (some 30)))) rfl

/-- C3 counterexample: an equality comparison between an i8 and an i16
operand produces an `i1` value (the icmp result), not a value of the
wider width 16 as the claim states for every binary operation. -/
theorem C3_cmp_width_counterexample :
    cgIntBinary BinOp.eq false ⟨8, 1⟩ ⟨16, 2⟩ = some ⟨1, 0⟩ ∧ (1 : Nat) ≠ 16 :=
  ⟨rfl, by decide⟩

/-- C3 amended: with integer operands of widths `w1 < w2`, the narrower
operand is widened to `w2` by zero-extension (its value unchanged) in
either order, and the operation produces a value of width `w2` — except
the comparison operators, whose icmp produces a 1-bit value. -/
theorem C3_widen_zext_width (op : BinOp) (u : Bool) (w1 w2 v1 v2 : Nat)
    (hw : w1 < w2) :
    widenPair ⟨w1, v1⟩ ⟨w2, v2⟩ = (⟨w2, v1⟩, ⟨w2, v2⟩) ∧
    widenPair ⟨w2, v2⟩ ⟨w1, v1⟩ = (⟨w2, v2⟩, ⟨w2, v1⟩) ∧
    (cgIntBinary op u ⟨w1, v1⟩ ⟨w2, v2⟩).all
      (fun res => res.width == if op.isCmp then 1 else w2) = true := by
  have h1 : ¬ w2 < w1 := Nat.lt_asymm hw
  refine ⟨?_, ?_, ?_⟩
  · simp [widenPair, zext, hw, h1]
  · simp [widenPair, zext, hw, h1]
  · have hwp : widenPair ⟨w1, v1⟩ ⟨w2, v2⟩ = (⟨w2, v1⟩, ⟨w2, v2⟩) := by
      simp [widenPair, zext, hw, h1]
    simp only [cgIntBinary, hwp]
    cases op <;> simp only [evalIntBin] <;> (repeat' split) <;>
      simp_all [Option.all, BinOp.isCmp]

/-- C3 witness: widths 8 and 16 with an addition. -/
theorem C3_widen_zext_width_witness :
    widenPair ⟨8, 3⟩ ⟨16, 5⟩ = (⟨16, 3⟩, ⟨16, 5⟩) ∧
    widenPair ⟨16, 5⟩ ⟨8, 3⟩ = (⟨16, 5⟩, ⟨16, 3⟩) ∧
    (cgIntBinary .plus false ⟨8, 3⟩ ⟨16, 5⟩).all
      (fun res => res.width == if BinOp.isCmp .plus then 1 else 16) = true :=
  C3_widen_zext_width .plus false 8 16 3 5 (by decide)

/-- C8: folding a comptime `/` or `%` whose right operand folds to zero
yields zero, and every emitted comptime constant (sizeof included) has
type i64. -/
theorem C8_comptime_div_zero_i64 (l r e : CtExpr) (lv : Int) (c : CgConst)
    (hl : ctFold l = some lv) (hr : ctFold r = some 0)
    (hc : cgComptime e = some c) :
    ctFold (.binary .slash l r) = some 0 ∧
    ctFold (.binary .percent l r) = some 0 ∧
    c.width = 64 := by
  refine ⟨?_, ?_, ?_⟩
  · simp [ctFold, hl, hr, ctBinFold]
  · simp [ctFold, hl, hr, ctBinFold]
  · cases e <;> simp only [cgComptime, Option.map_eq_some', Option.some.injEq] at hc
    case sizeofTy s => rw [← hc]
    all_goals (obtain ⟨v, -, rfl⟩ := hc; rfl)

/-- C8 witness: `6 / 0` and `6 % 0` fold to 0; the literal 5 is emitted
as an i64 constant. -/
theorem C8_comptime_div_zero_i64_witness :
    ctFold (.binary .slash (.intLit 6) (.intLit 0)) = some 0 ∧
    ctFold (.binary .percent (.intLit 6) (.intLit 0)) = some 0 ∧
    (⟨64, 5⟩ : CgConst).width = 64 :=
  C8_comptime_div_zero_i64 (.intLit 6) (.intLit 0) (.intLit 5) 6 ⟨64, 5⟩ rfl rfl rfl

/-- Auxiliary for C9: once a name is present in the symbol table,
processing further external declarations changes neither its lookup
result nor the module's functions of that name. -/
theorem cg_ext_list_already (ds : List ExtSig) (g : ExtCG) (name : String)
    (h : (sym_lookup g.syms name).isSome = true) :
    sym_lookup (cg_ext_list g ds).syms name = sym_lookup g.syms name ∧
    (cg_ext_list g ds).mod.filter (fun f => f.1 == name) =
      g.mod.filter (fun f => f.1 == name) := by
  induction ds generalizing g with
  | nil => exact ⟨rfl, rfl⟩
  | cons d rest ih =>
    simp only [cg_ext_list, cg_ext_decl]
    by_cases hd : (sym_lookup g.syms d.name).isSome
    · rw [if_pos hd]
      exact ih g h
    · rw [if_neg hd]
      have hne : (d.name == name) = false := by
        rw [beq_eq_false_iff_ne]
        intro he
        rw [he] at hd
        exact hd h
      have hlk : sym_lookup ({ name := d.name, type := extFnType d } :: g.syms) name =
          sym_lookup g.syms name := by
        simp [sym_lookup, List.find?, hne]
      obtain ⟨e1, e2⟩ := ih ⟨g.mod ++ [(d.name, extFnType d)],
        { name := d.name, type := extFnType d } :: g.syms⟩ (by rw [hlk]; exact h)
      refine ⟨by rw [e1]; exact hlk, ?_⟩
      rw [e2]
      simp [List.filter_append, hne]

/-- Auxiliary for C9: from a state where a name is absent, the final
lookup result is the first declaration of that name in the list, and
the module gains exactly that one function of the name. -/
theorem cg_ext_list_fresh (ds : List ExtSig) (g : ExtCG) (name : String)
    (h : sym_lookup g.syms name = none) :
    sym_lookup (cg_ext_list g ds).syms name =
      (ds.find? (fun d => d.name == name)).map
        (fun d => { name := d.name, type := extFnType d }) ∧
    (cg_ext_list g ds).mod.filter (fun f => f.1 == name) =
      g.mod.filter (fun f => f.1 == name) ++
        ((ds.find? (fun d => d.name == name)).map
          (fun d => (d.name, extFnType d))).toList := by
  induction ds generalizing g with
  | nil => simp [cg_ext_list, h]
  | cons d rest ih =>
    simp only [cg_ext_list, cg_ext_decl]
    by_cases hdn : (d.name == name) = true
    · have hdn2 : d.name = name := beq_iff_eq.mp hdn
      have hl : ¬ (sym_lookup g.syms d.name).isSome = true := by
        rw [hdn2, h]
        simp
      rw [if_neg hl]
      have hlk : sym_lookup ({ name := d.name, type := extFnType d } :: g.syms) name =
          some { name := d.name, type := extFnType d } := by
        simp [sym_lookup, List.find?, hdn]
      obtain ⟨e1, e2⟩ := cg_ext_list_already rest
        ⟨g.mod ++ [(d.name, extFnType d)],
          { name := d.name, type := extFnType d } :: g.syms⟩ name (by rw [hlk]; rfl)
      rw [e1, hlk, e2]
      simp [List.find?, hdn, List.filter_append]
    · have hne : (d.name == name) = false := by
        cases hb : (d.name == name) with
        | true => exact absurd hb hdn
        | false => rfl
      by_cases hl : (sym_lookup g.syms d.name).isSome
      · rw [if_pos hl]
        obtain ⟨e1, e2⟩ := ih g h
        rw [e1, e2]
        simp [List.find?, hne]
      · rw [if_neg hl]
        have hlk : sym_lookup ({ name := d.name, type := extFnType d } :: g.syms) name =
            none := by
          simp only [sym_lookup, List.find?, hne]
          exact h
        obtain ⟨e1, e2⟩ := ih ⟨g.mod ++ [(d.name, extFnType d)],
          { name := d.name, type := extFnType d } :: g.syms⟩ hlk
        rw [e1, e2]
        simp [List.find?, hne, List.filter_append]

/-- C9: processing the external declarations of a program from an empty
state, a name's symbol-table lookup resolves to the signature of the
first declaration carrying that name (later duplicates are silently
skipped), and the module contains at most one function of the name —
exactly the first declaration's when one exists. -/
theorem C9_ext_first_registration_wins (ds : List ExtSig) (name : String) :
    sym_lookup (cg_ext_list ⟨[], []⟩ ds).syms name =
      (ds.find? (fun d => d.name == name)).map
        (fun d => { name := d.name, type := extFnType d }) ∧
    (cg_ext_list ⟨[], []⟩ ds).mod.filter (fun f => f.1 == name) =
      ((ds.find? (fun d => d.name == name)).map
        (fun d => (d.name, extFnType d))).toList ∧
    ((cg_ext_list ⟨[], []⟩ ds).mod.filter (fun f => f.1 == name)).length ≤ 1 := by
  obtain ⟨e1, e2⟩ := cg_ext_list_fresh ds ⟨[], []⟩ name rfl
  simp only [List.filter_nil, List.nil_append] at e2
  refine ⟨e1, e2, ?_⟩
  rw [e2]
  cases ds.find? (fun d => d.name == name) <;> simp

/-- Auxiliary for C1: emitting a list of deferred expression statements
appends their events in list order. -/
theorem emitDefers_exprS (f : Nat) (ids : List Nat) :
    ∀ s : DSt, emitDefers (f + 1) s (ids.map DStmt.exprS) =
      some { s with out := s.out ++ ids.map DEv.stmt } := by
  induction ids with
  | nil => intro s; simp [emitDefers]
  | cons t rest ih =>
    intro s
    simp only [List.map_cons, emitDefers, cg_stmt]
    rw [ih { s with out := s.out ++ [DEv.stmt t] }]
    simp

/-- Auxiliary for C1: a return emits the whole defer stack in reverse
insertion order, then the ret terminator. -/
theorem cg_stmt_ret_defers (f : Nat) (ids : List Nat) (s : DSt) (v : Option Int)
    (hdef : s.defers = ids.map DStmt.exprS) :
    cg_stmt (f + 2) s (.ret v) =
      some { s with out := s.out ++ ids.reverse.map DEv.stmt ++ [DEv.retI v],
                    term := true } := by
  have he : emitDefers (f + 1) s s.defers.reverse =
      some { s with out := s.out ++ ids.reverse.map DEv.stmt } := by
    conv_lhs => rw [hdef]
    rw [show (ids.map DStmt.exprS).reverse = ids.reverse.map DStmt.exprS from by simp]
    exact emitDefers_exprS f ids.reverse s
  simp only [cg_stmt, he]

/-- Auxiliary for C1: lowering a sequence of defer statements pushes
their bodies onto the defer stack in source order and emits nothing. -/
theorem cg_block_defer_list (f : Nat) (ids : List Nat) :
    ∀ (s : DSt) (tail : List DStmt), s.term = false →
      cg_block (f + 1) s (ids.map (fun i => DStmt.deferS (.exprS i)) ++ tail) =
        cg_block (f + 1) { s with defers := s.defers ++ ids.map DStmt.exprS } tail := by
  induction ids with
  | nil => intro s tail _; simp
  | cons i rest ih =>
    intro s tail hterm
    have h1 : cg_stmt (f + 1) s (DStmt.deferS (DStmt.exprS i)) =
        some { s with defers := s.defers ++ [DStmt.exprS i] } := by
      simp [cg_stmt]
    simp only [List.map_cons, List.cons_append, cg_block, h1, List.append_eq]
    rw [if_neg (by simpa using hterm :
      ¬ ({ s with defers := s.defers ++ [DStmt.exprS i] } : DSt).term = true)]
    rw [ih { s with defers := s.defers ++ [DStmt.exprS i] } tail hterm]
    simp [List.append_assoc]

/-- Auxiliary for C1: a block consisting of one return statement. -/
theorem cg_block_single_ret (f : Nat) (ids : List Nat) (s : DSt) (v : Option Int)
    (hdef : s.defers = ids.map DStmt.exprS) :
    cg_block (f + 2) s [.ret v] =
      some { s with out := s.out ++ ids.reverse.map DEv.stmt ++ [DEv.retI v],
                    term := true } := by
  simp only [cg_block, cg_stmt_ret_defers f ids s v hdef]
  simp

/-- C1: in a function whose body registers deferred expression
statements with tags `ids` in source order, the lowering emits them in
reverse insertion order immediately before the exit terminator, both at
an explicit `return` and at the implicit end-of-function fall-through;
lowering `break` or `continue` emits a single branch and no deferred
statements. -/
theorem C1_defers_reverse_order_at_exits (ids : List Nat) (v : Option Int)
    (rv : Bool) (f : Nat) (out : List DEv) (ds : List DStmt) :
    cg_fn_body (f + 2) (ids.map (fun i => DStmt.deferS (.exprS i)) ++ [.ret v]) rv =
      some (ids.reverse.map DEv.stmt ++ [DEv.retI v]) ∧
    cg_fn_body (f + 2) (ids.map (fun i => DStmt.deferS (.exprS i))) rv =
      some (ids.reverse.map DEv.stmt ++ [DEv.retI (if rv then none else some 0)]) ∧
    cg_stmt (f + 1) ⟨out, ds, false, true⟩ .breakS =
      some ⟨out ++ [DEv.brEnd], ds, true, true⟩ ∧
    cg_stmt (f + 1) ⟨out, ds, false, true⟩ .contS =
      some ⟨out ++ [DEv.brCond], ds, true, true⟩ := by
  refine ⟨?_, ?_, ?_, ?_⟩
  · simp only [cg_fn_body]
    rw [show (f + 2) = (f + 1) + 1 from rfl,
      cg_block_defer_list (f + 1) ids ⟨[], [], false, false⟩ [.ret v] rfl,
      show (f + 1) + 1 = f + 2 from rfl,
      cg_block_single_ret f ids _ v (by simp)]
    simp
  · simp only [cg_fn_body]
    rw [show ids.map (fun i => DStmt.deferS (.exprS i)) =
          ids.map (fun i => DStmt.deferS (.exprS i)) ++ [] from (List.append_nil _).symm,
      show (f + 2) = (f + 1) + 1 from rfl,
      cg_block_defer_list (f + 1) ids ⟨[], [], false, false⟩ [] rfl]
    simp only [cg_block]
    have he : emitDefers ((f + 1) + 1)
        ({ (⟨[], [], false, false⟩ : DSt) with defers := [] ++ ids.map DStmt.exprS })
        ({ (⟨[], [], false, false⟩ : DSt) with
            defers := [] ++ ids.map DStmt.exprS } : DSt).defers.reverse =
        some { ({ (⟨[], [], false, false⟩ : DSt) with
            defers := [] ++ ids.map DStmt.exprS } : DSt) with
          out := [] ++ ids.reverse.map DEv.stmt } := by
      conv_lhs => rw [show ({ (⟨[], [], false, false⟩ : DSt) with
            defers := [] ++ ids.map DStmt.exprS } : DSt).defers.reverse =
          ids.reverse.map DStmt.exprS from by simp]
      exact emitDefers_exprS (f + 1) ids.reverse _
    rw [he]
    simp
  · simp [cg_stmt]
  · simp [cg_stmt]

/-- Auxiliary for C5: when the defer stack holds a `return` statement,
lowering any `return` re-enters the defer-emission loop on the unchanged
stack with no base case — the C recursion never terminates, so no amount
of fuel suffices. -/
theorem cg_stmt_ret_selfloop (w : Option Int) :
    ∀ (f : Nat) (s : DSt), s.defers = [DStmt.ret w] →
      ∀ v, cg_stmt f s (.ret v) = none := by
  intro f
  induction f with
  | zero => intro s _ v; simp [cg_stmt]
  | succ f ih =>
    intro s h v
    have he : emitDefers f s s.defers.reverse = none := by
      conv_lhs => rw [h]
      simp only [List.reverse_cons, List.reverse_nil, List.nil_append, emitDefers]
      rw [ih s h w]
    simp only [cg_stmt, he]

/-- C5: compiling `fn main() -> i32 { defer return 7; return 3 }` does
not terminate: lowering the outer `return 3` emits the deferred
`return 7`, whose own lowering re-emits the unchanged defer stack, so
cg_stmt recurses on itself unboundedly (the embedding returns `none`
for every fuel) and the compiler crashes instead of producing an
executable exiting with code 7. -/
theorem C5_defer_return_diverges :
    ∀ f : Nat, cg_fn_body f [DStmt.deferS (.ret (some 7)), .ret (some 3)] false = none := by
  intro f
  match f with
  | 0 => rfl
  | f + 1 =>
    have h1 : cg_stmt (f + 1) (⟨[], [], false, false⟩ : DSt)
        (DStmt.deferS (.ret (some 7))) =
        some ⟨[], [DStmt.ret (some 7)], false, false⟩ := by
      simp [cg_stmt]
    have h2 : cg_stmt (f + 1) (⟨[], [DStmt.ret (some 7)], false, false⟩ : DSt)
        (.ret (some 3)) = none :=
      cg_stmt_ret_selfloop (some 7) (f + 1) _ rfl (some 3)
    simp only [cg_fn_body, cg_block, h1, h2]
    simp

/-- C4: the pipeline rewrite inserts the left operand as the first
argument of a call right-hand side, and wraps a bare identifier
right-hand side into a one-argument call; consequently parsing
`x |> f(a, b)` yields the same AST as parsing `f(x, a, b)`, and
`x |> f` the same AST as `f(x)`. -/
theorem C4_pipeline_rewrite_equiv (x callee : PNode) (args : List PNode) (fname : String) :
    pipe_rewrite x (.call callee args) = some (.call callee (x :: args)) ∧
    pipe_rewrite x (.ident fname) = some (.call (.ident fname) [x]) ∧
    parse_expr 30 [.ident "x", .pipeOp, .ident "f", .lparen, .ident "a", .comma,
        .ident "b", .rparen] =
      parse_expr 30 [.ident "f", .lparen, .ident "x", .comma, .ident "a", .comma,
        .ident "b", .rparen] ∧
    parse_expr 30 [.ident "x", .pipeOp, .ident "f"] =
      parse_expr 30 [.ident "f", .lparen, .ident "x", .rparen] ∧
    parse_expr 30 [.ident "x", .pipeOp, .ident "f", .lparen, .ident "a", .comma,
        .ident "b", .rparen] =
      some (.call (.ident "f") [.ident "x", .ident "a", .ident "b"], []) ∧
    parse_expr 30 [.ident "x", .pipeOp, .ident "f"] =
      some (.call (.ident "f") [.ident "x"], []) :=
  ⟨rfl, rfl, rfl, rfl, rfl, rfl⟩

/-- C7 counterexample: at top level, the form `foo(1)` begins with an
identifier immediately followed by `(`, yet the parser does not produce
a function declaration — the token after the matching `)` is none of
`=`, `->`, `{`, so the form is collected as a statement and wrapped in
the synthesized `main`. -/
theorem C7_toplevel_call_is_statement_counterexample :
    parser_parse 30 [.ident "foo", .lparen, .intLit 1, .rparen] =
      some [.fnDecl "main" [] .i32 [.exprStmt (.call (.ident "foo") [.intLit 1])]] ∧
    (parser_parse 30 [.ident "foo", .lparen, .intLit 1, .rparen]).map
      (fun ds => ds.any (declaresFnNamed "foo")) = some false :=
  ⟨rfl, rfl⟩

/-- C7 amended: in declaration position (parse_decl), an identifier
followed by `(` always begins a function declaration and an identifier
followed by `{` a struct declaration; at top level an identifier
followed by `{` parses as a struct declaration, and an identifier
followed by `(` parses as a function declaration when the token after
the matching `)` is `=`, `->` or `{`. -/
theorem C7_ident_lookahead_decls (fuel : Nat) (n : String) (rest : List Tok) :
    parse_decl fuel (.ident n :: .lparen :: rest) =
      parse_fn_decl fuel false (.ident n :: .lparen :: rest) ∧
    parse_decl fuel (.ident n :: .lbrace :: rest) =
      parse_st_decl fuel false (.ident n :: .lbrace :: rest) ∧
    parser_parse 30 [.ident "f", .lparen, .rparen, .lbrace, .rbrace] =
      some [.fnDecl "f" [] .void []] ∧
    parser_parse 30 [.ident "P", .lbrace, .ident "x", .colon, .i32, .rbrace] =
      some [.stDecl "P" [("x", .i32)]] := by
  refine ⟨?_, ?_, rfl, rfl⟩
  · simp [parse_decl, checkTok, identHead?, Tok.kind]
  · simp [parse_decl, checkTok, identHead?, Tok.kind]

/-- C10: in a non-external function declaration (`allow_anon` false), a
parameter written as a bare identifier with no `: type` annotation is
accepted and given the default type i32 — alone, mixed with annotated
parameters, and through a whole `fn` declaration. -/
theorem C10_bare_param_defaults_to_i32 (f : Nat) (n m : String) (rest : List Tok) :
    parse_params (f + 2) false (.ident n :: .rparen :: rest) =
      some ([(n, EsType.i32)], false, .rparen :: rest) ∧
    parse_params (f + 2) false
        (.ident n :: .comma :: .ident m :: .colon :: .i64 :: .rparen :: rest) =
      some ([(n, .i32), (m, .i64)], false, .rparen :: rest) ∧
    parse_fn_decl 30 true [.fn, .ident "g", .lparen, .ident "x", .rparen, .lbrace,
        .rbrace] =
      some (.fnDecl "g" [("x", .i32)] .void [], []) := by
  refine ⟨?_, ?_, rfl⟩
  · simp [parse_params, parse_paramsF, paramsLoopF, checkTok, identHead?, is_type_start,
      Tok.kind]
  · simp [parse_params, parse_paramsF, paramsLoopF, checkTok, identHead?, is_type_start,
      parse_type, basicType, Tok.kind]

/-- Auxiliary for C6: the driver runs at most `k` expansion passes. -/
theorem ppPassCount_le (ms : List PMac) :
    ∀ (k : Nat) (cur : List Char), ppPassCount ms k cur ≤ k := by
  intro k
  induction k with
  | zero => intro cur; simp [ppPassCount]
  | succ k ih =>
    intro cur
    simp only [ppPassCount]
    cases h : expandPass ms cur with
    | none => simp only [h]; omega
    | some e => simp only [h]; exact Nat.succ_le_succ (ih e)

/-- C6 amended: the expansion phase is re-run at most 16 passes and a
pass that produces no change stops the driver immediately; preprocess
terminates (with a result) on every input whose collection phase
returns, the scanners being total by construction — but the collection
phase itself loops forever on an unclosed `⚡ name(` parameter list (the
counterexample), so termination holds on every input only outside that
case. -/
theorem C6_pass_bound_and_early_stop (src cur txt : List Char) (ms ms2 : List PMac)
    (k : Nat) (hstop : expandPass ms cur = none)
    (hc : collectGo (src.length + 1) [] src = some (ms2, txt)) :
    preprocessPassCount src ≤ 16 ∧
    ppLoop ms (k + 1) cur = cur ∧
    ∃ r, preprocess src = some r := by
  refine ⟨?_, ?_, ?_⟩
  · simp only [preprocessPassCount]
    cases h : collectGo (src.length + 1) [] src with
    | none => simp
    | some p =>
      obtain ⟨ms3, txt3⟩ := p
      by_cases he : ms3.isEmpty <;> simp [he, ppPassCount_le]
  · simp [ppLoop, hstop]
  · simp only [preprocess, hc]
    by_cases he : ms2.isEmpty <;> simp [he]

/-- C6 counterexample: on the input `⚡ f(+` the collection phase's
parameter-list scan makes no progress at the `+` and the C loop at
preproc.c 66-73 never terminates (modelled as `none`), so preprocess
does not terminate on every input. -/
theorem C6_collect_diverges_counterexample :
    preprocess ['⚡', ' ', 'f', '(', '+'] = none := rfl

/-- C6 witness: the input `a` defines no macros: zero passes run, and a
no-change pass stops the loop at once. -/
theorem C6_pass_bound_and_early_stop_witness :
    preprocessPassCount ['a'] ≤ 16 ∧
    ppLoop [] (0 + 1) ['a'] = ['a'] ∧
    ∃ r, preprocess ['a'] = some r :=
  C6_pass_bound_and_early_stop ['a'] ['a'] ['a'] [] [] 0 rfl rfl


end ElStupido
